import Mathlib

/-!
# Game server: player registry, tick loop and connection handlers

A shallow embedding of `src/cmd/server/main.go` and `src/internal/shared/types.go`.

* A `*shared.Player` is an address (`Ptr`) into a heap of `Player` objects; the registry
  `pm.players : map[string]*shared.Player` is a finite map from session ids to addresses.
* A `[]shared.Player` returned by `GetAllPlayers` is a backing array of struct *values*,
  kept in a store of slices that is separate from the heap of `Player` objects.
* `time.Now()` is an input (`now`), a `*websocket.Conn` is a connection handle, and what
  the code does to the outside world (log lines, sends, closes) is returned as a trace of
  `Effect`s.
* A `range` over the map visits its entries in an order Go leaves open; the model
  visits them in the order of the map's representation.
* The read-write mutex makes every method of `PlayerManager` atomic, so a concurrent
  execution is a sequence of method calls; the lock itself is not modelled.
-/

namespace GameServer

/-! ## `internal/shared/types.go` -/

/-- A `float64`, carried as its IEEE-754 bit pattern: the server only copies coordinates. -/
structure Float64 where
  bits : Nat
  deriving DecidableEq, Repr, Inhabited

/-- The value `0.0`. -/
def Float64.zero : Float64 := ⟨0⟩

/-- The value `5.0` (sign 0, exponent 0x401, mantissa 0x4000000000000). -/
def Float64.five : Float64 := ⟨0x4014000000000000⟩

/-- `type AnimationState int`. -/
abbrev AnimationState := Int

/-- `Idle AnimationState = iota`. -/
def Idle : AnimationState := 0
/-- Second constant of the `iota` block. -/
def Walking : AnimationState := 1
/-- Third constant of the `iota` block. -/
def Running : AnimationState := 2
/-- Fourth constant of the `iota` block. -/
def Jumping : AnimationState := 3

/-- `type Position struct`. -/
structure Position where
  X : Float64
  Y : Float64
  Z : Float64
  deriving DecidableEq, Repr, Inhabited

/-- `type Rotation struct`. -/
structure Rotation where
  X : Float64
  Y : Float64
  Z : Float64
  deriving DecidableEq, Repr, Inhabited

/-- `type ClientMessage struct`. -/
structure ClientMessage where
  Position : Position
  Rotation : Rotation
  Animation : AnimationState
  deriving DecidableEq, Repr, Inhabited

/-- A `time.Time` value, as a clock reading. -/
abbrev Time := Nat

/-- A `*websocket.Conn`: the handle of one transport connection. -/
abbrev Conn := Nat

/-- A `[]byte` payload. -/
abbrev Bytes := List Nat

/-- `type Player struct`. -/
structure Player where
  WSConn : Conn
  ID : String
  ConnectedTime : Time
  LastReceivedMessage : Time
  Name : String
  Position : Position
  Rotation : Rotation
  Animation : AnimationState
  deriving DecidableEq, Repr, Inhabited

/-- `type GameWorld struct`. -/
structure GameWorld where
  Tick : Int
  Time : Time
  Players : List Player
  deriving DecidableEq, Repr, Inhabited

/-- `func (p *Player) UpdateLastMessage()`, with `time.Now()` as the input `now`. -/
def Player.UpdateLastMessage (p : Player) (now : Time) : Player :=
  { p with LastReceivedMessage := now }

/-- `websocket.TextMessage`. -/
def TextMessage : Int := 1

/-! ## Effects on the outside world -/

/-- What a call does outside the registry: a log line, a write on a connection, a close. -/
inductive Effect where
  | logConnected (id : String) (total : Nat)
  | logDisconnected (id : String) (total : Nat)
  | logSendFailed (id : String)
  | logReadFailed (id : String)
  | logUpdated (id : String) (msg : ClientMessage)
  | logReceived (id : String) (text : String)
  | logWriteError
  | logMarshalFailed
  | logTick (tick : Int) (players : Nat)
  | logStats
  | logUpgradeFailed
  | badRequest
  | writeMessage (conn : Conn) (messageType : Int) (data : Bytes)
  | close (conn : Conn)
  deriving DecidableEq, Repr

/-- An effect that touches the transport `c`: a write on it or a close of it. -/
def Effect.touches (c : Conn) : Effect → Bool
  | .writeMessage c' _ _ => c' = c
  | .close c' => c' = c
  | _ => false

/-- `func (p *Player) SendMessage(messageType int, data []byte) error`: one
`WriteMessage` on the player's connection. -/
def Player.SendMessage (p : Player) (messageType : Int) (data : Bytes) : Effect :=
  .writeMessage p.WSConn messageType data

/-! ## Memory and the `PlayerManager` -/

/-- A `*shared.Player`: the address of a `Player` object. -/
abbrev Ptr := Nat

/-- The Go map type `map[string]*shared.Player`: a finite map with unique keys. -/
abbrev PlayerMap := AList (fun _ : String => Ptr)

/-- The memory the server works on: the heap of `Player` objects, the backing arrays of
the `[]shared.Player` slices made so far, and the map held by `playerManager`. -/
structure State where
  heap : Ptr → Player
  slices : List (List Player)
  players : PlayerMap

/-- `var playerManager = &PlayerManager{players: make(map[string]*shared.Player)}`. -/
def State.init : State := ⟨fun _ => default, [], ∅⟩

/-- `func (pm *PlayerManager) AddPlayer(player *shared.Player)`. -/
def AddPlayer (σ : State) (player : Ptr) : State × List Effect :=
  let players := σ.players.insert (σ.heap player).ID player
  ({ σ with players := players },
   [.logConnected (σ.heap player).ID players.entries.length])

/-- `func (pm *PlayerManager) RemovePlayer(playerID string)`. -/
def RemovePlayer (σ : State) (playerID : String) : State × List Effect :=
  let players := σ.players.erase playerID
  ({ σ with players := players }, [.logDisconnected playerID players.entries.length])

/-- `func (pm *PlayerManager) GetPlayerCount() int`. -/
def GetPlayerCount (σ : State) : Nat :=
  σ.players.entries.length

/-- One iteration of the loop of `BroadcastToAll`: the send, and a log line if it failed. -/
def broadcastOne (sendFails : Conn → Bool) (data : Bytes) (player : Player) : List Effect :=
  if sendFails player.WSConn then
    [player.SendMessage TextMessage data, .logSendFailed player.ID]
  else
    [player.SendMessage TextMessage data]

/-- `func (pm *PlayerManager) BroadcastToAll(data []byte)`; `sendFails c` tells whether
a `WriteMessage` on connection `c` returns an error. The map is ranged over in the order
of its representation. -/
def BroadcastToAll (σ : State) (sendFails : Conn → Bool) (data : Bytes) :
    State × List Effect :=
  σ.players.entries.foldl
    (fun acc e => (acc.1, acc.2 ++ broadcastOne sendFails data (acc.1.heap e.2)))
    (σ, [])

/-- `func (pm *PlayerManager) GetAllPlayers() []shared.Player`: a new backing array is
made and every `*player` is copied into it; the result is the new memory and the index of
the slice in the store. -/
def GetAllPlayers (σ : State) : State × Nat :=
  let players := σ.players.entries.foldl (fun acc e => acc ++ [σ.heap e.2]) []
  ({ σ with slices := σ.slices ++ [players] }, σ.slices.length)

/-- The elements of the slice `s`, read from memory. -/
def State.slice (σ : State) (s : Nat) : List Player :=
  σ.slices.getD s []

/-- `func (pm *PlayerManager) UpdatePlayerState(playerID string, clientMsg
shared.ClientMessage)`, with `time.Now()` as the input `now`. -/
def UpdatePlayerState (σ : State) (playerID : String) (clientMsg : ClientMessage)
    (now : Time) : State :=
  match σ.players.lookup playerID with
  | some player =>
    let p := σ.heap player
    let p := { p with Position := clientMsg.Position }
    let p := { p with Rotation := clientMsg.Rotation }
    let p := { p with Animation := clientMsg.Animation }
    { σ with heap := Function.update σ.heap player (p.UpdateLastMessage now) }
  | none => σ

/-! ## Sequences of calls -/

/-- A call of `AddPlayer` or of `RemovePlayer`. -/
inductive AddRemove where
  | add (player : Ptr)
  | remove (playerID : String)
  deriving DecidableEq, Repr

/-- The state after the call (its log line dropped). -/
def AddRemove.apply (σ : State) : AddRemove → State
  | .add player => (AddPlayer σ player).1
  | .remove playerID => (RemovePlayer σ playerID).1

/-- The state after a sequence of `AddPlayer` and `RemovePlayer` calls, first call first. -/
def applyAddRemove (σ : State) (calls : List AddRemove) : State :=
  calls.foldl AddRemove.apply σ

/-- The id a call is about: `player.ID` for `AddPlayer(player)`. -/
def AddRemove.id (heap : Ptr → Player) : AddRemove → String
  | .add player => (heap player).ID
  | .remove playerID => playerID

/-- Whether the call is an `AddPlayer`. -/
def AddRemove.isAdd : AddRemove → Bool
  | .add _ => true
  | .remove _ => false

/-- The most recent call of the sequence that is about the id `k`. -/
def lastCall (heap : Ptr → Player) (calls : List AddRemove) (k : String) : Option AddRemove :=
  calls.reverse.find? (fun c => c.id heap = k)

/-- Whether the most recent call about `k` is an `AddPlayer`. -/
def lastIsAdd (heap : Ptr → Player) (calls : List AddRemove) (k : String) : Bool :=
  match lastCall heap calls k with
  | some c => c.isAdd
  | none => false

/-- The distinct ids of the sequence whose most recent call is an `AddPlayer`. -/
def addedNotRemoved (heap : Ptr → Player) (calls : List AddRemove) : List String :=
  ((calls.map (AddRemove.id heap)).dedup).filter (lastIsAdd heap calls)

/-- A call of `AddPlayer`, `RemovePlayer` or `UpdatePlayerState`. -/
inductive Call where
  | add (player : Ptr)
  | remove (playerID : String)
  | update (playerID : String) (clientMsg : ClientMessage) (now : Time)

/-- The state after the call (its log line dropped). -/
def Call.apply (σ : State) : Call → State
  | .add player => (AddPlayer σ player).1
  | .remove playerID => (RemovePlayer σ playerID).1
  | .update playerID clientMsg now => UpdatePlayerState σ playerID clientMsg now

/-- The state after a sequence of registry calls, first call first. -/
def applyCalls (σ : State) (calls : List Call) : State :=
  calls.foldl Call.apply σ

/-- The slice that `GetAllPlayers` returns, read right after the call. -/
def snapshot (σ : State) : List Player :=
  (GetAllPlayers σ).1.slice (GetAllPlayers σ).2

/-- The registry invariant that `AddPlayer` sets up: every key of the map is the `ID` of
the `Player` object it points to. -/
def WellFormed (σ : State) : Prop :=
  ∀ e ∈ σ.players.entries, (σ.heap e.2).ID = e.1

instance (σ : State) : Decidable (WellFormed σ) := by
  unfold WellFormed; infer_instance

/-- The `Player` that `handleConnection` builds for a new connection (lines 169-177);
`LastReceivedMessage` is left at the zero time. -/
def newPlayer (conn : Conn) (sessionID : String) (now : Time) : Player :=
  { WSConn := conn
    ID := sessionID
    ConnectedTime := now
    LastReceivedMessage := 0
    Name := "Player-" ++ sessionID
    Position := ⟨Float64.zero, Float64.zero, Float64.zero⟩
    Rotation := ⟨Float64.zero, Float64.zero, Float64.zero⟩
    Animation := Idle }

/-- `&shared.Player{...}`: the object `p` is stored at the address `a`. -/
def State.store (σ : State) (a : Ptr) (p : Player) : State :=
  { σ with heap := Function.update σ.heap a p }

/-- Whether the effect is a `WriteMessage` on a connection. -/
def Effect.isWrite : Effect → Bool
  | .writeMessage _ _ _ => true
  | _ => false

/-- Whether the effect is a `Close` of a connection. -/
def Effect.isClose : Effect → Bool
  | .close _ => true
  | _ => false

/-! ## `gameLoop` -/

/-- The body of the `for range ticker.C` loop of `gameLoop`, run on one timer fire.
`tick` is the loop's counter, `now` is `time.Now()`, `data` is what `json.Marshal(world)`
returns (`none` for an error) and `sendFails` the outcome of the sends. The result is the
new counter, the memory, the `GameWorld` built, whether it was broadcast, and the effects.
The counter is a Go `int`; it is taken unbounded here, since the ticker's interval is at
least one millisecond and 2^63 fires are out of reach. -/
def gameLoopBody (tick : Int) (σ : State) (now : Time) (data : Option Bytes)
    (sendFails : Conn → Bool) : Int × State × (GameWorld × Bool) × List Effect :=
  let tick := tick + 1
  let r := GetAllPlayers σ
  let world : GameWorld := { Tick := tick, Time := now, Players := r.1.slice r.2 }
  match data with
  | none => (tick, r.1, (world, false), [.logMarshalFailed])
  | some d =>
    let b := BroadcastToAll r.1 sendFails d
    (tick, b.1, (world, true),
      b.2 ++ (if tick % 100 = 0 then [.logTick tick world.Players.length, .logStats] else []))

/-! ## `handleConnection` and the whole server -/

/-- Where a connection handler is: in its read loop (`Active`), out of the loop with its
deferred `RemovePlayer` and `Close` still to run (`Closing`), or returned (`Closed`). -/
inductive Status where
  | Active
  | Closing
  | Closed
  deriving DecidableEq, Repr

/-- The locals of one run of `handleConnection` past the upgrade: the connection, the
session id, the `player` pointer, and where the handler is. -/
structure Handler where
  conn : Conn
  sessionID : String
  player : Ptr
  status : Status
  deriving DecidableEq, Repr

/-- The server: the memory with the registry, the first unused address, the handlers
started so far (handler `i` serves connection `i`), and the counter of `gameLoop`. -/
structure Sys where
  mem : State
  next : Ptr
  nconn : Nat
  handlers : Nat → Option Handler
  tick : Int

/-- The server at start-up: `playerManager` is the empty registry and `tick := 0`. -/
def Sys.init : Sys := ⟨State.init, 0, 0, fun _ => none, 0⟩

/-- What can happen next: a request on `/ws` reaching `AddPlayer` (with its `session`
parameter and whether the upgrade succeeds), a handler reading a message that parses as a
`ClientMessage`, a handler reading another message (and whether the echo send fails), a
handler's read failing, a handler that has left its loop running its deferred calls, and
the ticker of `gameLoop` firing. Each event holds at most one method call of
`PlayerManager`, so the events of different goroutines interleave as freely as the lock
allows. -/
inductive Event where
  | request (sessionID : String) (upgradeOk : Bool) (now : Time)
  | update (h : Nat) (clientMsg : ClientMessage) (now : Time)
  | text (h : Nat) (msg : String) (echoFails : Bool)
  | readError (h : Nat)
  | deferred (h : Nat)
  | timer (now : Time) (data : Option Bytes) (sendFails : Conn → Bool)

/-- What a step gives: the next state, the effects, and for a timer fire the `GameWorld`
built with whether it was broadcast. -/
structure StepResult where
  sys : Sys
  effects : List Effect
  world : Option (GameWorld × Bool)

/-- The bytes of a string. -/
def bytesOf (s : String) : Bytes :=
  s.toUTF8.data.toList.map UInt8.toNat

/-- The `break` out of the read loop of `handleConnection`: the handler is no longer
reading, and its deferred calls have not run yet. -/
def leaveLoop (s : Sys) (i : Nat) (h : Handler) (effects : List Effect) : StepResult :=
  { sys := { s with handlers := Function.update s.handlers i (some { h with status := .Closing }) }
    effects := effects
    world := none }

/-- The deferred calls of `handleConnection`, run in reverse order of their `defer`
statements when the function returns: `playerManager.RemovePlayer(player.ID)`, then
`conn.Close()`. -/
def runDeferred (s : Sys) (i : Nat) (h : Handler) : StepResult :=
  let r := RemovePlayer s.mem (s.mem.heap h.player).ID
  { sys := { s with mem := r.1
                    handlers := Function.update s.handlers i (some { h with status := .Closed }) }
    effects := r.2 ++ [.close h.conn]
    world := none }

/-- One step of the server. An event for a handler that does not exist, or that is not
at the point of its code the event belongs to, changes nothing. -/
def step (s : Sys) : Event → StepResult
  | .request sessionID upgradeOk now =>
    if sessionID = "" then ⟨s, [.badRequest], none⟩
    else if upgradeOk = false then ⟨s, [.logUpgradeFailed], none⟩
    else
      let conn := s.nconn
      let player := s.next
      let r := AddPlayer (s.mem.store player (newPlayer conn sessionID now)) player
      { sys := { s with mem := r.1
                        next := s.next + 1
                        nconn := s.nconn + 1
                        handlers := Function.update s.handlers conn
                          (some ⟨conn, sessionID, player, .Active⟩) }
        effects := r.2
        world := none }
  | .update i clientMsg now =>
    match s.handlers i with
    | some h =>
      if h.status = .Active then
        { sys := { s with mem := UpdatePlayerState s.mem (s.mem.heap h.player).ID clientMsg now }
          effects := [.logUpdated (s.mem.heap h.player).ID clientMsg]
          world := none }
      else ⟨s, [], none⟩
    | none => ⟨s, [], none⟩
  | .text i msg echoFails =>
    match s.handlers i with
    | some h =>
      if h.status = .Active then
        let id := (s.mem.heap h.player).ID
        let echo := (s.mem.heap h.player).SendMessage TextMessage
          (bytesOf ("Echo from " ++ id ++ ": " ++ msg))
        if echoFails then leaveLoop s i h [.logReceived id msg, echo, .logWriteError]
        else ⟨s, [.logReceived id msg, echo], none⟩
      else ⟨s, [], none⟩
    | none => ⟨s, [], none⟩
  | .readError i =>
    match s.handlers i with
    | some h =>
      if h.status = .Active then leaveLoop s i h [.logReadFailed (s.mem.heap h.player).ID]
      else ⟨s, [], none⟩
    | none => ⟨s, [], none⟩
  | .deferred i =>
    match s.handlers i with
    | some h =>
      if h.status = .Closing then runDeferred s i h
      else ⟨s, [], none⟩
    | none => ⟨s, [], none⟩
  | .timer now data sendFails =>
    let r := gameLoopBody s.tick s.mem now data sendFails
    { sys := { s with mem := r.2.1, tick := r.1 }
      effects := r.2.2.2
      world := some r.2.2.1 }

/-- The state after a sequence of events, first event first. -/
def run (s : Sys) : List Event → Sys
  | [] => s
  | e :: es => run (step s e).sys es

/-- The `GameWorld`s that the timer fires of the sequence build, in order, each with
whether it was broadcast. -/
def worldsBuilt (s : Sys) : List Event → List (GameWorld × Bool)
  | [] => []
  | e :: es => (step s e).world.toList ++ worldsBuilt (step s e).sys es

/-- Whether the event, taken in the state `s`, is a write to the registry under the
session id `k` by a handler other than `i`: another connection accepted under `k` (its
`AddPlayer`), or the deferred `RemovePlayer` of another handler whose `player.ID` is `k`. -/
def disturbs (s : Sys) (k : String) (i : Nat) : Event → Bool
  | .request sessionID upgradeOk _ => decide (sessionID = k) && upgradeOk
  | .deferred j =>
    decide (j ≠ i) &&
      (match s.handlers j with
       | some g => decide (g.status = .Closing) && decide ((s.mem.heap g.player).ID = k)
       | none => false)
  | _ => false

/-- Whether, along the sequence run from `s`, no handler other than `i` writes to the
registry under the session id `k`. -/
def undisturbed (s : Sys) (k : String) (i : Nat) : List Event → Bool
  | [] => true
  | e :: es => !disturbs s k i e && undisturbed (step s e).sys k i es

/-- Whether the event is a fire of the ticker. -/
def Event.isTimer : Event → Bool
  | .timer _ _ _ => true
  | _ => false

/-- What the handler `i`, accepted under the session id `k` with its `Player` at the
address `p`, keeps for as long as no other handler writes to the registry under `k`: its
locals, its `Player` object with the id and the connection it was given, and, until its
own deferred `RemovePlayer` has run, the registry entry under `k` pointing to `p`. -/
structure Owns (i : Nat) (k : String) (p : Ptr) (s : Sys) : Prop where
  conn_lt : i < s.nconn
  player_lt : p < s.next
  ident : (s.mem.heap p).ID = k ∧ (s.mem.heap p).WSConn = i
  handler : ∃ st, s.handlers i = some ⟨i, k, p, st⟩ ∧
    (st ≠ .Closed → s.mem.players.lookup k = some p)

/-! ## `loadConfig` and the start of `gameLoop` -/

/-- Modelled from the spec: the declaration of `shared.Config` is not among the sources;
its three fields are the ones `loadConfig` fills in and `main` reads (host, port, and the
tick rate in ticks per second, an `int`). -/
structure Config where
  Port : String
  Host : String
  TickRate : Int
  deriving DecidableEq, Repr

/-- The process environment: the value of each variable that is set. -/
abbrev Environ := String → Option String

/-- `os.Getenv`: the value of the variable, and the empty string when it is not set. -/
def Getenv (env : Environ) (key : String) : String :=
  (env key).getD ""

/-- `strconv.Atoi` of the Go library (64-bit `int`): an optional sign `+` or `-`, then
one or more decimal digits and nothing else; `none` stands for a returned error, which is
what any other string and any value outside the `int` range give. -/
def Atoi (s : String) : Option Int :=
  let digits := match s.toList with
    | '-' :: r => r
    | '+' :: r => r
    | cs => cs
  if digits = [] ∨ digits.all Char.isDigit = false then none
  else
    let n : Int := digits.foldl (fun n c => n * 10 + ((c.toNat : Int) - 48)) 0
    let v : Int := if s.toList.head? = some '-' then -n else n
    if -(2 : Int) ^ 63 ≤ v ∧ v < (2 : Int) ^ 63 then some v else none

/-- `func loadConfig() shared.Config`, with the environment as input (the log line is
dropped). -/
def loadConfig (env : Environ) : Config :=
  let port := Getenv env "SERVER_PORT"
  let port := if port = "" then "8080" else port
  let host := Getenv env "SERVER_HOST"
  let host := if host = "" then "0.0.0.0" else host
  let tickRate : Int := 20
  let val := Getenv env "TICK_RATE"
  let tickRate :=
    if val ≠ "" then
      match Atoi val with
      | some i => i
      | none => tickRate
    else tickRate
  { Port := port, Host := host, TickRate := tickRate }

/-- The first statement of `gameLoop`: the interval
`time.Duration(1000/tickRate) * time.Millisecond`, in nanoseconds. `none` stands for a
panic: Go's integer division panics on a zero divisor, and `time.NewTicker` panics on an
interval that is not positive. -/
def tickerInterval (tickRate : Int) : Option Int :=
  if tickRate = 0 then none
  else
    let d := Int.tdiv 1000 tickRate * 1000000
    if d ≤ 0 then none else some d

/-! ## Lemmas on the registry map -/

theorem applyAddRemove_heap (calls : List AddRemove) (σ : State) :
    (applyAddRemove σ calls).heap = σ.heap := by
  induction calls generalizing σ with
  | nil => rfl
  | cons c cs ih =>
    have h := ih (c.apply σ)
    cases c <;> simpa [applyAddRemove, AddRemove.apply, AddPlayer, RemovePlayer] using h

theorem mem_applyAddRemove (calls : List AddRemove) (σ : State) (k : String) :
    k ∈ (applyAddRemove σ calls).players ↔
      (match lastCall σ.heap calls k with
       | some c => c.isAdd = true
       | none => k ∈ σ.players) := by
  induction calls generalizing σ with
  | nil => simp [applyAddRemove, lastCall]
  | cons c cs ih =>
    have h := ih (c.apply σ)
    have hh : (c.apply σ).heap = σ.heap := by
      cases c <;> rfl
    rw [hh] at h
    have hrun : applyAddRemove σ (c :: cs) = applyAddRemove (c.apply σ) cs := rfl
    rw [hrun, h]
    have hl : lastCall σ.heap (c :: cs) k =
        (lastCall σ.heap cs k).or (if c.id σ.heap = k then some c else none) := by
      simp only [lastCall, List.reverse_cons, List.find?_append]
      congr 1
      by_cases hc : c.id σ.heap = k <;> simp [List.find?, hc]
    rw [hl]
    cases hcs : lastCall σ.heap cs k with
    | some d => simp
    | none =>
      cases c with
      | add p =>
        by_cases hc : (σ.heap p).ID = k
        · simp [AddRemove.id, hc, AddRemove.isAdd, AddRemove.apply, AddPlayer,
            AList.mem_insert]
        · have hc' : k ≠ (σ.heap p).ID := fun e => hc e.symm
          simp [AddRemove.id, hc, hc', AddRemove.apply, AddPlayer, AList.mem_insert]
      | remove j =>
        by_cases hc : j = k
        · subst hc
          simp [AddRemove.id, AddRemove.isAdd, AddRemove.apply, RemovePlayer, AList.mem_erase]
        · have hc' : k ≠ j := fun e => hc e.symm
          simp [AddRemove.id, hc, hc', AddRemove.apply, RemovePlayer, AList.mem_erase]

theorem lastCall_id {heap : Ptr → Player} {calls : List AddRemove} {k : String}
    {c : AddRemove} (h : lastCall heap calls k = some c) :
    c ∈ calls ∧ c.id heap = k := by
  unfold lastCall at h
  have h1 := List.find?_some h
  have h2 := List.mem_of_find?_eq_some h
  exact ⟨by simpa using h2, by simpa using h1⟩

theorem mem_addedNotRemoved (heap : Ptr → Player) (calls : List AddRemove) (k : String) :
    k ∈ addedNotRemoved heap calls ↔ lastIsAdd heap calls k = true := by
  unfold addedNotRemoved
  rw [List.mem_filter]
  constructor
  · exact fun h => h.2
  · intro h
    refine ⟨?_, h⟩
    unfold lastIsAdd at h
    cases hc : lastCall heap calls k with
    | none => rw [hc] at h; cases h
    | some c =>
      have := lastCall_id hc
      rw [List.mem_dedup, List.mem_map]
      exact ⟨c, this.1, this.2⟩

theorem addedNotRemoved_nodup (heap : Ptr → Player) (calls : List AddRemove) :
    (addedNotRemoved heap calls).Nodup :=
  (List.nodup_dedup _).filter _

/-! ## Claims -/

/-- C1: after any finite sequence of `AddPlayer` and `RemovePlayer` calls on the empty
registry, `GetPlayerCount` is the number of distinct ids whose most recent call in the
sequence is an `AddPlayer`. -/
theorem count_eq_addedNotRemoved (heap : Ptr → Player) (slices : List (List Player))
    (calls : List AddRemove) :
    GetPlayerCount (applyAddRemove ⟨heap, slices, ∅⟩ calls)
      = (addedNotRemoved heap calls).length := by
  have hkeys : (applyAddRemove ⟨heap, slices, ∅⟩ calls).players.keys.Perm
      (addedNotRemoved heap calls) := by
    rw [List.perm_ext_iff_of_nodup (AList.keys_nodup _) (addedNotRemoved_nodup _ _)]
    intro k
    rw [← AList.mem_keys, mem_applyAddRemove, mem_addedNotRemoved]
    unfold lastIsAdd
    cases lastCall heap calls k with
    | none => simp [AList.not_mem_empty]
    | some c => simp
  have hlen := hkeys.length_eq
  simpa [GetPlayerCount, AList.keys, List.keys] using hlen

theorem applyCalls_slices (calls : List Call) (σ : State) :
    (applyCalls σ calls).slices = σ.slices := by
  induction calls generalizing σ with
  | nil => rfl
  | cons c cs ih =>
    have h := ih (c.apply σ)
    have hc : (c.apply σ).slices = σ.slices := by
      cases c with
      | add p => rfl
      | remove k => rfl
      | update k m now =>
        simp only [Call.apply, UpdatePlayerState]
        cases σ.players.lookup k <;> rfl
    rw [hc] at h
    exact h

theorem foldl_copy (heap : Ptr → Player) (l : List (Sigma fun _ : String => Ptr))
    (acc : List Player) :
    l.foldl (fun acc e => acc ++ [heap e.2]) acc = acc ++ l.map (fun e => heap e.2) := by
  induction l generalizing acc with
  | nil => simp
  | cons e t ih => simp [ih]

theorem snapshot_eq (σ : State) :
    snapshot σ = σ.players.entries.map (fun e => σ.heap e.2) := by
  simp [snapshot, GetAllPlayers, State.slice, foldl_copy, List.getD]

/-- C2: the slice that `GetAllPlayers` returned holds the values the entries had at the
time of the call, and reading it after any later sequence of `AddPlayer`, `RemovePlayer`
and `UpdatePlayerState` calls gives the same elements. -/
theorem snapshot_isolated (σ : State) (calls : List Call) :
    (applyCalls (GetAllPlayers σ).1 calls).slice (GetAllPlayers σ).2
        = (GetAllPlayers σ).1.slice (GetAllPlayers σ).2 ∧
      (GetAllPlayers σ).1.slice (GetAllPlayers σ).2
        = σ.players.entries.map (fun e => σ.heap e.2) := by
  refine ⟨?_, snapshot_eq σ⟩
  simp only [State.slice, applyCalls_slices]

theorem live_entry_moves_snapshot_stays :
    ((applyCalls (GetAllPlayers (AddPlayer (State.init.store 0 (newPlayer 0 "p1" 0)) 0).1).1
        [.update "p1" ⟨⟨Float64.five, Float64.five, Float64.zero⟩, default, Walking⟩ 3]).heap
          0).Position = ⟨Float64.five, Float64.five, Float64.zero⟩ ∧
      (applyCalls (GetAllPlayers (AddPlayer (State.init.store 0 (newPlayer 0 "p1" 0)) 0).1).1
        [.update "p1" ⟨⟨Float64.five, Float64.five, Float64.zero⟩, default, Walking⟩ 3]).slice
          0 = [newPlayer 0 "p1" 0] := by
  decide

theorem filter_key_eq {k : String} {p : Ptr} :
    ∀ (l : List (Sigma fun _ : String => Ptr)), l.NodupKeys → l.dlookup k = some p →
      l.filter (fun e => decide (e.1 = k)) = [⟨k, p⟩]
  | [], _, h => by simp at h
  | e :: t, hnd, h => by
    obtain ⟨e1, e2⟩ := e
    rw [List.nodupKeys_cons] at hnd
    by_cases hk : e1 = k
    · subst hk
      rw [List.dlookup_cons_eq] at h
      have hp : e2 = p := by simpa using h
      subst hp
      have ht : t.filter (fun e => decide (e.1 = e1)) = [] := by
        rw [List.filter_eq_nil_iff]
        intro x hx hxk
        have hx1 : x.1 = e1 := by simpa using hxk
        have hmem : x.1 ∈ t.keys := List.mem_keys_of_mem hx
        rw [hx1] at hmem
        exact hnd.1 hmem
      simp [List.filter, ht]
    · have hk' : k ≠ e1 := fun e => hk e.symm
      rw [List.dlookup_cons_ne t (⟨e1, e2⟩ : Sigma fun _ : String => Ptr) hk'] at h
      have ih := filter_key_eq t hnd.2 h
      simp [List.filter, hk, ih]

theorem entry_of_lookup {σ : State} {k : String} {p : Ptr}
    (h : σ.players.lookup k = some p) : (⟨k, p⟩ : Sigma fun _ : String => Ptr) ∈ σ.players.entries :=
  List.of_mem_dlookup h

theorem snapshot_update_filter (σ : State) (hwf : WellFormed σ) (id : String) (p : Ptr)
    (hp : σ.players.lookup id = some p) (q : Player) (hq : q.ID = id) :
    (snapshot { σ with heap := Function.update σ.heap p q }).filter
      (fun x => decide (x.ID = id)) = [q] := by
  rw [snapshot_eq]
  have hpid : (σ.heap p).ID = id := hwf _ (entry_of_lookup hp)
  have hmap : ∀ e ∈ σ.players.entries,
      decide ((Function.update σ.heap p q e.2).ID = id) = decide (e.1 = id) := by
    intro e he
    have hid := hwf e he
    by_cases hep : e.2 = p
    · have h1 : e.1 = id := by rw [← hid, hep, hpid]
      rw [hep, Function.update_same, hq, h1]
    · rw [Function.update_noteq hep, hid]
  rw [List.filter_map]
  have hf : σ.players.entries.filter
      ((fun x => decide (x.ID = id)) ∘ fun e => Function.update σ.heap p q e.2)
      = σ.players.entries.filter (fun e => decide (e.1 = id)) :=
    List.filter_congr hmap
  rw [hf, filter_key_eq σ.players.entries σ.players.nodupKeys hp]
  simp

/-- C3: on a well-formed registry that holds `id`, after `UpdatePlayerState(id, u)` the
snapshot has exactly one element with that id; it carries the position, rotation and
animation of `u`, and the id and name the entry had. In particular, after `AddPlayer` of a
new player "p1" at the origin and `UpdatePlayerState("p1", (5,5,0), (0,0,0), Walking)` on
the empty registry, the snapshot is that single player at (5,5,0), Walking. -/
theorem update_then_snapshot :
    (∀ (σ : State) (id : String) (p : Ptr) (u : ClientMessage) (now : Time),
      WellFormed σ → σ.players.lookup id = some p →
      ∃ q, (snapshot (UpdatePlayerState σ id u now)).filter (fun x => decide (x.ID = id)) = [q] ∧
        q.Position = u.Position ∧ q.Rotation = u.Rotation ∧ q.Animation = u.Animation ∧
        q.ID = id ∧ q.ID = (σ.heap p).ID ∧ q.Name = (σ.heap p).Name) ∧
    (∀ (a : Ptr) (conn : Conn) (t now : Time),
      snapshot (UpdatePlayerState
          (AddPlayer (State.init.store a (newPlayer conn "p1" t)) a).1 "p1"
          ⟨⟨Float64.five, Float64.five, Float64.zero⟩,
           ⟨Float64.zero, Float64.zero, Float64.zero⟩, Walking⟩ now)
        = [{ newPlayer conn "p1" t with
              Position := ⟨Float64.five, Float64.five, Float64.zero⟩
              Animation := Walking
              LastReceivedMessage := now }]) := by
  constructor
  · intro σ id p u now hwf hp
    have hpid : (σ.heap p).ID = id := hwf _ (entry_of_lookup hp)
    have h := snapshot_update_filter σ hwf id p hp
      (Player.UpdateLastMessage
        { Player.mk (σ.heap p).WSConn (σ.heap p).ID (σ.heap p).ConnectedTime
            (σ.heap p).LastReceivedMessage (σ.heap p).Name u.Position u.Rotation
            (σ.heap p).Animation with Animation := u.Animation } now) hpid
    have h' : (snapshot (UpdatePlayerState σ id u now)).filter (fun x => decide (x.ID = id))
        = [Player.UpdateLastMessage
            { Player.mk (σ.heap p).WSConn (σ.heap p).ID (σ.heap p).ConnectedTime
                (σ.heap p).LastReceivedMessage (σ.heap p).Name u.Position u.Rotation
                (σ.heap p).Animation with Animation := u.Animation } now] := by
      simpa [UpdatePlayerState, hp] using h
    exact ⟨_, h', rfl, rfl, rfl, hpid, rfl, rfl⟩
  · intro a conn t now
    have hl : AList.lookup "p1" (AList.insert "p1" a (∅ : PlayerMap)) = some a :=
      AList.lookup_insert _
    simp only [UpdatePlayerState, AddPlayer, State.store, State.init, newPlayer,
      Function.update_same, hl, snapshot_eq]
    simp [Player.UpdateLastMessage, AList.insert_entries]

/-- C3, at a registry with the two players "p1" and "p2": updating "p1" leaves one
element with id "p1" in the snapshot, at the new position. -/
theorem update_then_snapshot_witness :
    ∃ q, (snapshot (UpdatePlayerState
        (AddPlayer (AddPlayer ((State.init.store 0 (newPlayer 0 "p1" 0)).store 1
          (newPlayer 1 "p2" 0)) 0).1 1).1 "p1"
        ⟨⟨Float64.five, Float64.five, Float64.zero⟩, default, Running⟩ 7)).filter
          (fun x => decide (x.ID = "p1")) = [q] ∧
      q.Position = ⟨Float64.five, Float64.five, Float64.zero⟩ ∧ q.Rotation = default ∧
      q.Animation = Running ∧ q.ID = "p1" ∧ q.ID = (newPlayer 0 "p1" 0).ID ∧
      q.Name = (newPlayer 0 "p1" 0).Name :=
  update_then_snapshot.1
    (AddPlayer (AddPlayer ((State.init.store 0 (newPlayer 0 "p1" 0)).store 1
          (newPlayer 1 "p2" 0)) 0).1 1).1 "p1" 0
    ⟨⟨Float64.five, Float64.five, Float64.zero⟩, default, Running⟩ 7
    (by decide) (by decide)

theorem foldl_broadcast (heap : Ptr → Player) (slices : List (List Player))
    (players : PlayerMap) (sendFails : Conn → Bool) (data : Bytes)
    (l : List (Sigma fun _ : String => Ptr)) (acc : List Effect) :
    l.foldl (fun (acc : State × List Effect) e =>
        (acc.1, acc.2 ++ broadcastOne sendFails data (acc.1.heap e.2)))
        ((⟨heap, slices, players⟩ : State), acc)
      = (⟨heap, slices, players⟩,
         acc ++ (l.map (fun e => broadcastOne sendFails data (heap e.2))).flatten) := by
  induction l generalizing acc with
  | nil => simp
  | cons e t ih => simp [ih, List.append_assoc]

theorem BroadcastToAll_eq (σ : State) (sendFails : Conn → Bool) (data : Bytes) :
    BroadcastToAll σ sendFails data
      = (σ, (σ.players.entries.map
              (fun e => broadcastOne sendFails data (σ.heap e.2))).flatten) := by
  obtain ⟨heap, slices, players⟩ := σ
  simp [BroadcastToAll, foldl_broadcast]

theorem filter_isWrite_broadcast (heap : Ptr → Player) (sendFails : Conn → Bool)
    (data : Bytes) (l : List (Sigma fun _ : String => Ptr)) :
    ((l.map (fun e => broadcastOne sendFails data (heap e.2))).flatten).filter Effect.isWrite
      = l.map (fun e => Effect.writeMessage (heap e.2).WSConn TextMessage data) := by
  induction l with
  | nil => rfl
  | cons e t ih =>
    simp only [List.map_cons, List.flatten_cons, List.filter_append, ih]
    unfold broadcastOne
    cases sendFails (heap e.2).WSConn <;>
      simp [Player.SendMessage, Effect.isWrite, List.filter]

theorem filter_isClose_broadcast (heap : Ptr → Player) (sendFails : Conn → Bool)
    (data : Bytes) (l : List (Sigma fun _ : String => Ptr)) :
    ((l.map (fun e => broadcastOne sendFails data (heap e.2))).flatten).filter Effect.isClose
      = [] := by
  induction l with
  | nil => rfl
  | cons e t ih =>
    simp only [List.map_cons, List.flatten_cons, List.filter_append, ih]
    unfold broadcastOne
    cases sendFails (heap e.2).WSConn <;>
      simp [Player.SendMessage, Effect.isClose, List.filter]

/-- C4: whatever sends fail, `BroadcastToAll` leaves the memory and the registry as they
were, and the writes it makes are, in the order of the range loop, one `WriteMessage` of
the payload as a text message on the connection of each registered player; it closes no
connection; a failed send adds only a log line. -/
theorem broadcast_sends_to_all (σ : State) (sendFails : Conn → Bool) (data : Bytes) :
    (BroadcastToAll σ sendFails data).1 = σ ∧
      (BroadcastToAll σ sendFails data).2.filter Effect.isWrite
        = σ.players.entries.map
            (fun e => Effect.writeMessage (σ.heap e.2).WSConn TextMessage data) ∧
      ((BroadcastToAll σ sendFails data).2.filter Effect.isWrite).length
        = GetPlayerCount σ ∧
      (BroadcastToAll σ sendFails data).2.filter Effect.isClose = [] := by
  rw [BroadcastToAll_eq]
  refine ⟨rfl, filter_isWrite_broadcast _ _ _ _, ?_, filter_isClose_broadcast _ _ _ _⟩
  rw [filter_isWrite_broadcast, List.length_map]
  rfl

theorem length_insert_of_mem {k : String} {b : Ptr} {m : PlayerMap} (h : k ∈ m) :
    (m.insert k b).entries.length = m.entries.length := by
  have h1 : (m.insert k b).keys.length = m.keys.length := by
    rw [AList.keys_insert, List.length_cons, List.length_erase_of_mem (AList.mem_keys.1 h)]
    have hpos : 0 < m.keys.length := List.length_pos_of_mem (AList.mem_keys.1 h)
    omega
  simpa [AList.keys, List.keys] using h1

/-- C7: when the registry holds an entry `a` under `k` and `AddPlayer` is called with a
player `b` whose `ID` is `k`, afterwards `k` maps to `b`, no `Player` object has been
written (so the entry has the transport and state of `b`), `GetPlayerCount` is the same,
every other id maps to what it mapped to, and the call made no write on and no close of
any connection: it only logs. -/
theorem add_overwrites (σ : State) (k : String) (a b : Ptr)
    (ha : σ.players.lookup k = some a) (hb : (σ.heap b).ID = k) :
    (AddPlayer σ b).1.players.lookup k = some b ∧
      (AddPlayer σ b).1.heap = σ.heap ∧
      GetPlayerCount (AddPlayer σ b).1 = GetPlayerCount σ ∧
      (∀ j, j ≠ k → (AddPlayer σ b).1.players.lookup j = σ.players.lookup j) ∧
      (∀ e ∈ (AddPlayer σ b).2, ∀ c, e.touches c = false) ∧
      (AddPlayer σ b).2 = [.logConnected k (GetPlayerCount σ)] := by
  have hmem : k ∈ σ.players := by
    rw [← AList.lookup_isSome, ha]; rfl
  have hlen := length_insert_of_mem (b := b) hmem
  refine ⟨?_, rfl, ?_, ?_, ?_, ?_⟩
  · simp [AddPlayer, hb, AList.lookup_insert]
  · simpa [AddPlayer, hb, GetPlayerCount] using hlen
  · intro j hj
    simp [AddPlayer, hb, AList.lookup_insert_ne hj]
  · intro e he c
    simp only [AddPlayer, List.mem_singleton] at he
    subst he
    rfl
  · simp only [AddPlayer, hb, GetPlayerCount, hlen]

/-- C7, at a registry where "s" is held by the player at address 0 and is added again
with the player at address 1. -/
theorem add_overwrites_witness :
    (AddPlayer (AddPlayer ((State.init.store 0 (newPlayer 0 "s" 0)).store 1
        (newPlayer 1 "s" 5)) 0).1 1).1.players.lookup "s" = some 1 ∧
      GetPlayerCount (AddPlayer (AddPlayer ((State.init.store 0 (newPlayer 0 "s" 0)).store 1
        (newPlayer 1 "s" 5)) 0).1 1).1 = 1 :=
  have h := add_overwrites (AddPlayer ((State.init.store 0 (newPlayer 0 "s" 0)).store 1
        (newPlayer 1 "s" 5)) 0).1 "s" 0 1 (by decide) (by decide)
  ⟨h.1, h.2.2.1.trans (by decide)⟩

/-- C8: `UpdatePlayerState` on an id that is not in the registry returns the state it was
given: no entry is made for the id, `GetPlayerCount` is the same, and no `Player` object
(position, rotation, animation, last-update time) is written. -/
theorem update_absent_noop (σ : State) (id : String) (u : ClientMessage) (now : Time)
    (h : id ∉ σ.players) :
    UpdatePlayerState σ id u now = σ ∧
      id ∉ (UpdatePlayerState σ id u now).players ∧
      GetPlayerCount (UpdatePlayerState σ id u now) = GetPlayerCount σ ∧
      ∀ p, (UpdatePlayerState σ id u now).heap p = σ.heap p := by
  have hl : σ.players.lookup id = none := AList.lookup_eq_none.2 h
  have he : UpdatePlayerState σ id u now = σ := by
    simp [UpdatePlayerState, hl]
  rw [he]
  exact ⟨rfl, h, rfl, fun _ => rfl⟩

/-- C8, at a registry that holds "p1" only, updated under "ghost". -/
theorem update_absent_noop_witness :
    UpdatePlayerState (AddPlayer (State.init.store 0 (newPlayer 0 "p1" 0)) 0).1 "ghost"
        ⟨⟨Float64.five, Float64.five, Float64.zero⟩, default, Walking⟩ 9
      = (AddPlayer (State.init.store 0 (newPlayer 0 "p1" 0)) 0).1 :=
  (update_absent_noop (AddPlayer (State.init.store 0 (newPlayer 0 "p1" 0)) 0).1 "ghost"
    ⟨⟨Float64.five, Float64.five, Float64.zero⟩, default, Walking⟩ 9 (by decide)).1

theorem erase_of_not_mem {k : String} {m : PlayerMap} (h : k ∉ m) : m.erase k = m :=
  AList.ext (List.kerase_of_not_mem_keys (fun hk => h (AList.mem_keys.2 hk)))

/-- C9: `RemovePlayer` is a total function whose only effect outside the registry is a
log line; on an absent id it returns the state it was given, so `GetPlayerCount` is the
same (as for "ghost" on the new registry); and calling it twice with an id leaves the
state that calling it once leaves. -/
theorem remove_idempotent (σ : State) (id : String) :
    (id ∉ σ.players → (RemovePlayer σ id).1 = σ ∧
        GetPlayerCount (RemovePlayer σ id).1 = GetPlayerCount σ) ∧
      (RemovePlayer (RemovePlayer σ id).1 id).1 = (RemovePlayer σ id).1 ∧
      (RemovePlayer σ id).2 = [.logDisconnected id (GetPlayerCount (RemovePlayer σ id).1)] ∧
      id ∉ (RemovePlayer σ id).1.players ∧
      (RemovePlayer State.init "ghost").1.players = State.init.players := by
  have hnot : id ∉ σ.players.erase id := by
    rw [AList.mem_erase]; exact fun h => h.1 rfl
  refine ⟨?_, ?_, rfl, hnot, ?_⟩
  · intro h
    have he : (RemovePlayer σ id).1 = σ := by
      simp [RemovePlayer, erase_of_not_mem h]
    rw [he]
    exact ⟨rfl, rfl⟩
  · simp [RemovePlayer, erase_of_not_mem hnot]
  · exact erase_of_not_mem (AList.not_mem_empty _)

/-- C9, at a registry that holds "p1" only: removing "ghost" changes nothing. -/
theorem remove_idempotent_witness :
    (RemovePlayer (AddPlayer (State.init.store 0 (newPlayer 0 "p1" 0)) 0).1 "ghost").1
        = (AddPlayer (State.init.store 0 (newPlayer 0 "p1" 0)) 0).1 ∧
      GetPlayerCount
        (RemovePlayer (AddPlayer (State.init.store 0 (newPlayer 0 "p1" 0)) 0).1 "ghost").1
        = GetPlayerCount (AddPlayer (State.init.store 0 (newPlayer 0 "p1" 0)) 0).1 :=
  (remove_idempotent (AddPlayer (State.init.store 0 (newPlayer 0 "p1" 0)) 0).1 "ghost").1
    (by decide)

/-! ## The tick counter -/

theorem step_not_timer (s : Sys) (e : Event) (h : e.isTimer = false) :
    (step s e).world = none ∧ (step s e).sys.tick = s.tick := by
  cases e with
  | request k ok now =>
    simp only [step]
    split
    · exact ⟨rfl, rfl⟩
    · split <;> exact ⟨rfl, rfl⟩
  | update i m now =>
    simp only [step]
    split
    · split <;> exact ⟨rfl, rfl⟩
    · exact ⟨rfl, rfl⟩
  | text i m f =>
    simp only [step]
    split
    · split
      · split <;> exact ⟨rfl, rfl⟩
      · exact ⟨rfl, rfl⟩
    · exact ⟨rfl, rfl⟩
  | readError i =>
    simp only [step]
    split
    · split <;> exact ⟨rfl, rfl⟩
    · exact ⟨rfl, rfl⟩
  | deferred i =>
    simp only [step]
    split
    · split <;> exact ⟨rfl, rfl⟩
    · exact ⟨rfl, rfl⟩
  | timer now data f => simp [Event.isTimer] at h

theorem gameLoopBody_tick (tick : Int) (σ : State) (now : Time) (data : Option Bytes)
    (f : Conn → Bool) :
    (gameLoopBody tick σ now data f).1 = tick + 1 ∧
      (gameLoopBody tick σ now data f).2.2.1.1.Tick = tick + 1 ∧
      (gameLoopBody tick σ now data f).2.2.1.2 = data.isSome := by
  cases data <;> exact ⟨rfl, rfl, rfl⟩

theorem worldsBuilt_ticks (evs : List Event) (s : Sys) :
    (worldsBuilt s evs).map (fun w => w.1.Tick)
      = (List.range (evs.countP Event.isTimer)).map (fun (i : Nat) => s.tick + 1 + (i : Int)) := by
  induction evs generalizing s with
  | nil => rfl
  | cons e es ih =>
    cases ht : e.isTimer with
    | false =>
      have h := step_not_timer s e ht
      simp only [worldsBuilt, h.1, Option.toList, List.nil_append, ih, h.2,
        List.countP_cons, ht]
      simp
    | true =>
      cases e with
      | timer now data f =>
        have h := gameLoopBody_tick s.tick s.mem now data f
        have hw : (step s (.timer now data f)).world
            = some (gameLoopBody s.tick s.mem now data f).2.2.1 := rfl
        have hs : (step s (.timer now data f)).sys.tick = s.tick + 1 := h.1
        simp only [worldsBuilt, hw, Option.toList, List.singleton_append, List.map_cons, ih,
          hs, h.2.1, List.countP_cons, ht, if_true, List.range_succ_eq_map, List.map_map]
        simp only [Int.add_zero, Nat.cast_zero, List.cons.injEq, true_and]
        apply List.map_congr_left
        intro i _
        simp only [Function.comp, Nat.succ_eq_add_one, Nat.cast_add, Nat.cast_one]
        omega
      | request k ok now => simp [Event.isTimer] at ht
      | update i m now => simp [Event.isTimer] at ht
      | text i m f => simp [Event.isTimer] at ht
      | readError i => simp [Event.isTimer] at ht
      | deferred i => simp [Event.isTimer] at ht

theorem pairwise_lt_ticks (t : Int) (n : Nat) :
    ((List.range n).map (fun (i : Nat) => t + 1 + (i : Int))).Pairwise (fun a b => a < b) := by
  rw [List.pairwise_map]
  refine (List.pairwise_lt_range n).imp ?_
  intro a b hab
  have hab' : a < b := hab
  show t + 1 + (a : Int) < t + 1 + (b : Int)
  omega

/-- C5: from start-up, under any interleaving of timer fires with the events of the
connection handlers and whatever fires fail to serialize, the `GameWorld` built on the
n-th timer fire has `Tick = n` (the sequence of `Tick`s built is 1, 2, ..., N for N
fires), and the `Tick`s of the worlds that are broadcast are strictly increasing. -/
theorem tick_counts_fires (evs : List Event) :
    (worldsBuilt Sys.init evs).map (fun w => w.1.Tick)
        = (List.range (evs.countP Event.isTimer)).map (fun (i : Nat) => (i : Int) + 1) ∧
      (((worldsBuilt Sys.init evs).filter (fun w => w.2)).map (fun w => w.1.Tick)).Pairwise
        (fun a b => a < b) := by
  have h := worldsBuilt_ticks evs Sys.init
  constructor
  · rw [h]
    apply List.map_congr_left
    intro i _
    show (0 : Int) + 1 + i = i + 1
    omega
  · have hsub : (((worldsBuilt Sys.init evs).filter (fun w => w.2)).map
        (fun w => w.1.Tick)).Sublist ((worldsBuilt Sys.init evs).map (fun w => w.1.Tick)) :=
      (List.filter_sublist _).map _
    rw [h] at hsub
    exact (pairwise_lt_ticks _ _).sublist hsub

/-! ## Ownership of registry entries -/

theorem UpdatePlayerState_players (σ : State) (id : String) (u : ClientMessage) (now : Time) :
    (UpdatePlayerState σ id u now).players = σ.players := by
  unfold UpdatePlayerState
  cases σ.players.lookup id <;> rfl

theorem UpdatePlayerState_ident (σ : State) (id : String) (u : ClientMessage) (now : Time)
    (p : Ptr) :
    ((UpdatePlayerState σ id u now).heap p).ID = (σ.heap p).ID ∧
      ((UpdatePlayerState σ id u now).heap p).WSConn = (σ.heap p).WSConn := by
  unfold UpdatePlayerState
  cases σ.players.lookup id with
  | none => exact ⟨rfl, rfl⟩
  | some q =>
    by_cases hq : p = q
    · subst hq
      simp [Function.update_same, Player.UpdateLastMessage]
    · simp [Function.update_noteq hq]

theorem gameLoopBody_mem (tick : Int) (σ : State) (now : Time) (data : Option Bytes)
    (f : Conn → Bool) :
    (gameLoopBody tick σ now data f).2.1.heap = σ.heap ∧
      (gameLoopBody tick σ now data f).2.1.players = σ.players := by
  cases data with
  | none => exact ⟨rfl, rfl⟩
  | some d =>
    simp only [gameLoopBody, BroadcastToAll_eq]
    exact ⟨rfl, rfl⟩

theorem run_append (pre post : List Event) (s : Sys) :
    run s (pre ++ post) = run (run s pre) post := by
  induction pre generalizing s with
  | nil => rfl
  | cons e es ih => exact ih (step s e).sys

theorem owns_accept (s : Sys) (k : String) (now : Time) (hk : k ≠ "") :
    Owns s.nconn k s.next (step s (.request k true now)).sys := by
  simp only [step, hk, if_false]
  refine ⟨Nat.lt_succ_self _, Nat.lt_succ_self _, ?_, ?_⟩
  · simp [AddPlayer, State.store, newPlayer]
  · refine ⟨.Active, ?_, fun _ => ?_⟩
    · simp
    · simp [AddPlayer, State.store, newPlayer, AList.lookup_insert]

theorem owns_of_mem {i : Nat} {k : String} {p : Ptr} {s t : Sys} (own : Owns i k p s)
    (hnext : t.next = s.next) (hnconn : t.nconn = s.nconn) (hhandlers : t.handlers = s.handlers)
    (hplayers : t.mem.players = s.mem.players)
    (hheap : (t.mem.heap p).ID = (s.mem.heap p).ID ∧
      (t.mem.heap p).WSConn = (s.mem.heap p).WSConn) : Owns i k p t := by
  refine ⟨hnconn ▸ own.conn_lt, hnext ▸ own.player_lt, ?_, ?_⟩
  · rw [hheap.1, hheap.2]; exact own.ident
  · rw [hhandlers, hplayers]; exact own.handler

theorem owns_leaveLoop {i : Nat} {k : String} {p : Ptr} {s : Sys} (own : Owns i k p s)
    (j : Nat) (g : Handler) (hg : s.handlers j = some g) (hact : g.status = .Active)
    (effects : List Effect) : Owns i k p (leaveLoop s j g effects).sys := by
  refine ⟨own.conn_lt, own.player_lt, own.ident, ?_⟩
  obtain ⟨st, hst, hl⟩ := own.handler
  by_cases hj : i = j
  · subst hj
    rw [hst] at hg
    cases hg
    refine ⟨.Closing, ?_, fun _ => hl (by rw [show st = Status.Active from hact]; decide)⟩
    simp [leaveLoop]
  · refine ⟨st, ?_, hl⟩
    simp only [leaveLoop, Function.update_noteq hj]
    exact hst

theorem owns_runDeferred {i : Nat} {k : String} {p : Ptr} {s : Sys} (own : Owns i k p s)
    (j : Nat) (g : Handler) (hg : s.handlers j = some g) (hst : g.status = .Closing)
    (hq : disturbs s k i (.deferred j) = false) : Owns i k p (runDeferred s j g).sys := by
  refine ⟨own.conn_lt, own.player_lt, own.ident, ?_⟩
  obtain ⟨st, hi, hl⟩ := own.handler
  by_cases hj : i = j
  · subst hj
    rw [hi] at hg
    cases hg
    refine ⟨.Closed, ?_, fun h => absurd rfl h⟩
    simp [runDeferred]
  · have hji : j ≠ i := fun e => hj e.symm
    have hne : k ≠ (s.mem.heap g.player).ID := by
      intro e
      simp [disturbs, hji, hg, hst, e] at hq
    refine ⟨st, ?_, fun h => ?_⟩
    · simp only [runDeferred, Function.update_noteq hj]
      exact hi
    · simp only [runDeferred, RemovePlayer, AList.lookup_erase_ne hne]
      exact hl h

theorem owns_step {i : Nat} {k : String} {p : Ptr} {s : Sys} (own : Owns i k p s)
    (e : Event) (hq : disturbs s k i e = false) : Owns i k p (step s e).sys := by
  cases e with
  | request sid ok now =>
    simp only [step]
    split
    · exact own
    · split
      · exact own
      · rename_i hsid hok
        have hok' : ok = true := by simpa using hok
        have hne : k ≠ sid := by
          intro e
          simp [disturbs, hok', e] at hq
        have hp : p ≠ s.next := Nat.ne_of_lt own.player_lt
        have hi : i ≠ s.nconn := Nat.ne_of_lt own.conn_lt
        obtain ⟨st, hst, hl⟩ := own.handler
        refine ⟨Nat.lt_succ_of_lt own.conn_lt, Nat.lt_succ_of_lt own.player_lt, ?_, ?_⟩
        · simpa [AddPlayer, State.store, Function.update_noteq hp] using own.ident
        · refine ⟨st, ?_, fun h => ?_⟩
          · simp only [Function.update_noteq hi]
            exact hst
          · have := hl h
            simpa [AddPlayer, State.store, newPlayer, AList.lookup_insert_ne hne] using this
  | update j m now =>
    simp only [step]
    split
    · split
      · exact owns_of_mem own rfl rfl rfl (UpdatePlayerState_players _ _ _ _)
          (UpdatePlayerState_ident _ _ _ _ _)
      · exact own
    · exact own
  | text j m f =>
    simp only [step]
    split
    · rename_i g hg
      split
      · rename_i hact
        split
        · exact owns_leaveLoop own j g hg hact _
        · exact own
      · exact own
    · exact own
  | readError j =>
    simp only [step]
    split
    · rename_i g hg
      split
      · rename_i hact
        exact owns_leaveLoop own j g hg hact _
      · exact own
    · exact own
  | deferred j =>
    simp only [step]
    split
    · rename_i g hg
      split
      · rename_i hst
        exact owns_runDeferred own j g hg hst hq
      · exact own
    · exact own
  | timer now data f =>
    have hm := gameLoopBody_mem s.tick s.mem now data f
    have hheap : (step s (.timer now data f)).sys.mem.heap = s.mem.heap := hm.1
    exact owns_of_mem own rfl rfl rfl hm.2 (by rw [hheap]; exact ⟨rfl, rfl⟩)

theorem owns_run {i : Nat} {k : String} {p : Ptr} (evs : List Event) {s : Sys}
    (own : Owns i k p s) (hq : undisturbed s k i evs = true) : Owns i k p (run s evs) := by
  induction evs generalizing s with
  | nil => exact own
  | cons e es ih =>
    simp only [undisturbed, Bool.and_eq_true, Bool.not_eq_true'] at hq
    exact ih (owns_step own e hq.1) hq.2

theorem disturbed_loses_entry {i : Nat} {k : String} {p : Ptr} {s : Sys} (own : Owns i k p s)
    (hk : k ≠ "") (e : Event) (hd : disturbs s k i e = true) :
    (step s e).sys.mem.players.lookup k ≠ some p := by
  cases e with
  | request sid ok now =>
    simp only [disturbs, Bool.and_eq_true, decide_eq_true_eq] at hd
    obtain ⟨hsid, hok⟩ := hd
    subst hsid
    subst hok
    have hp : s.next ≠ p := fun e => Nat.lt_irrefl p (e ▸ own.player_lt)
    simp [step, hk, AddPlayer, State.store, newPlayer, AList.lookup_insert, hp]
  | deferred j =>
    simp only [disturbs, Bool.and_eq_true, decide_eq_true_eq] at hd
    obtain ⟨_, hd⟩ := hd
    cases hg : s.handlers j with
    | none => simp [hg] at hd
    | some g =>
      simp only [hg, Bool.and_eq_true, decide_eq_true_eq] at hd
      simp [step, hg, hd.1, runDeferred, RemovePlayer, hd.2, AList.lookup_erase]
  | update j m now => simp [disturbs] at hd
  | text j m f => simp [disturbs] at hd
  | readError j => simp [disturbs] at hd
  | timer now data f => simp [disturbs] at hd

/-- C6, as the code has it: take any reachable state, a connection accepted there under
a non-empty session id `k`, and any later events among which no other connection is
accepted under `k` and no other handler runs its deferred `RemovePlayer` under `k`. Then
the handler keeps its session id and its `Player`, and until its own deferred
`RemovePlayer` has run (so as long as it is `Active`) the registry maps `k` to the
`Player` it created, which still carries `k` and the handler's connection. -/
theorem active_handler_owns_entry (pre post : List Event) (k : String) (now : Time)
    (hk : k ≠ "")
    (hq : undisturbed (step (run Sys.init pre) (.request k true now)).sys k
      (run Sys.init pre).nconn post = true) :
    ∃ st, (run Sys.init (pre ++ .request k true now :: post)).handlers (run Sys.init pre).nconn
        = some ⟨(run Sys.init pre).nconn, k, (run Sys.init pre).next, st⟩ ∧
      ((run Sys.init (pre ++ .request k true now :: post)).mem.heap
        (run Sys.init pre).next).ID = k ∧
      ((run Sys.init (pre ++ .request k true now :: post)).mem.heap
        (run Sys.init pre).next).WSConn = (run Sys.init pre).nconn ∧
      (st ≠ .Closed →
        (run Sys.init (pre ++ .request k true now :: post)).mem.players.lookup k
          = some (run Sys.init pre).next) := by
  have own := owns_run post (owns_accept (run Sys.init pre) k now hk) hq
  have hrun : run Sys.init (pre ++ .request k true now :: post)
      = run (step (run Sys.init pre) (.request k true now)).sys post := by
    rw [run_append]; rfl
  rw [hrun]
  obtain ⟨st, hst, hl⟩ := own.handler
  exact ⟨st, hst, own.ident.1, own.ident.2, hl⟩

/-- C6 after a shared session id: two connections use "s" and both end, a connection
under "b" is accepted, then (handler 3) a new connection under "s"; while handler 2
under "b" updates, leaves and runs its deferred calls and the ticker fires, handler 3 is
`Active` and the registry maps "s" to the `Player` it created. -/
theorem active_handler_owns_entry_witness :
    ∃ st, (run Sys.init ([.request "s" true 0, .request "s" true 1, .readError 0,
          .deferred 0, .readError 1, .deferred 1, .request "b" true 2]
          ++ .request "s" true 3 :: [.update 2 default 4, .update 3 default 5,
            .timer 6 (some []) (fun _ => true), .readError 2, .deferred 2])).handlers 3
        = some ⟨3, "s", 3, st⟩ ∧
      ((run Sys.init ([.request "s" true 0, .request "s" true 1, .readError 0,
          .deferred 0, .readError 1, .deferred 1, .request "b" true 2]
          ++ .request "s" true 3 :: [.update 2 default 4, .update 3 default 5,
            .timer 6 (some []) (fun _ => true), .readError 2, .deferred 2])).mem.heap 3).ID
        = "s" ∧
      ((run Sys.init ([.request "s" true 0, .request "s" true 1, .readError 0,
          .deferred 0, .readError 1, .deferred 1, .request "b" true 2]
          ++ .request "s" true 3 :: [.update 2 default 4, .update 3 default 5,
            .timer 6 (some []) (fun _ => true), .readError 2, .deferred 2])).mem.heap 3).WSConn
        = 3 ∧
      (st ≠ .Closed →
        (run Sys.init ([.request "s" true 0, .request "s" true 1, .readError 0,
          .deferred 0, .readError 1, .deferred 1, .request "b" true 2]
          ++ .request "s" true 3 :: [.update 2 default 4, .update 3 default 5,
            .timer 6 (some []) (fun _ => true), .readError 2,
            .deferred 2])).mem.players.lookup "s" = some 3) :=
  active_handler_owns_entry
    [.request "s" true 0, .request "s" true 1, .readError 0, .deferred 0, .readError 1,
      .deferred 1, .request "b" true 2]
    [.update 2 default 4, .update 3 default 5, .timer 6 (some []) (fun _ => true),
      .readError 2, .deferred 2]
    "s" 3 (by decide) (by decide)

/-- C6 as stated fails when two connections use the session id "s". After both are
accepted, the first handler is `Active` while the entry under "s" is the second
handler's player. Once the first handler's read has failed and its deferred
`RemovePlayer` has run, the second handler is `Active` while the registry has no entry
under "s". The same happens when the second connection is accepted after the first
handler's read has failed and before its deferred `RemovePlayer` runs. -/
theorem shared_session_counterexample :
    ((run Sys.init [.request "s" true 0, .request "s" true 1]).handlers 0
        = some ⟨0, "s", 0, .Active⟩ ∧
      (run Sys.init [.request "s" true 0, .request "s" true 1]).mem.players.lookup "s"
        = some 1) ∧
    ((run Sys.init [.request "s" true 0, .request "s" true 1, .readError 0,
        .deferred 0]).handlers 1 = some ⟨1, "s", 1, .Active⟩ ∧
      (run Sys.init [.request "s" true 0, .request "s" true 1, .readError 0,
        .deferred 0]).mem.players.lookup "s" = none) ∧
    ((run Sys.init [.request "s" true 0, .readError 0, .request "s" true 1,
        .deferred 0]).handlers 1 = some ⟨1, "s", 1, .Active⟩ ∧
      (run Sys.init [.request "s" true 0, .readError 0, .request "s" true 1,
        .deferred 0]).mem.players.lookup "s" = none) := by
  decide

/-! ## The registry invariant holds of every registry built through the methods -/

theorem wellFormed_empty (heap : Ptr → Player) (slices : List (List Player)) :
    WellFormed ⟨heap, slices, ∅⟩ := by
  intro e he
  simp at he

theorem wellFormed_AddPlayer {σ : State} (hwf : WellFormed σ) (player : Ptr) :
    WellFormed (AddPlayer σ player).1 := by
  intro e he
  simp only [AddPlayer, AList.insert_entries, List.mem_cons] at he
  rcases he with he | he
  · subst he; rfl
  · exact hwf e ((List.kerase_sublist _ _).subset he)

theorem wellFormed_RemovePlayer {σ : State} (hwf : WellFormed σ) (playerID : String) :
    WellFormed (RemovePlayer σ playerID).1 := by
  intro e he
  exact hwf e ((List.kerase_sublist _ _).subset he)

theorem wellFormed_UpdatePlayerState {σ : State} (hwf : WellFormed σ) (playerID : String)
    (clientMsg : ClientMessage) (now : Time) :
    WellFormed (UpdatePlayerState σ playerID clientMsg now) := by
  intro e he
  rw [UpdatePlayerState_players] at he
  rw [(UpdatePlayerState_ident σ playerID clientMsg now e.2).1]
  exact hwf e he

theorem wellFormed_applyCalls (calls : List Call) {σ : State} (hwf : WellFormed σ) :
    WellFormed (applyCalls σ calls) := by
  induction calls generalizing σ with
  | nil => exact hwf
  | cons c cs ih =>
    apply ih
    cases c with
    | add p => exact wellFormed_AddPlayer hwf p
    | remove k => exact wellFormed_RemovePlayer hwf k
    | update k m now => exact wellFormed_UpdatePlayerState hwf k m now

/-! ## Configuration -/

theorem loadConfig_fallback (env : Environ)
    (h : env "TICK_RATE" = none ∨ env "TICK_RATE" = some "" ∨
      Atoi (Getenv env "TICK_RATE") = none) :
    (loadConfig env).TickRate = 20 ∧ tickerInterval (loadConfig env).TickRate = some 50000000 := by
  have h20 : (loadConfig env).TickRate = 20 := by
    unfold loadConfig
    by_cases hv : Getenv env "TICK_RATE" = ""
    · simp [hv]
    · have ha : Atoi (Getenv env "TICK_RATE") = none := by
        rcases h with h | h | h
        · exact absurd (by simp [Getenv, h]) hv
        · exact absurd (by simp [Getenv, h]) hv
        · exact h
      simp [hv, ha]
  rw [h20]
  exact ⟨rfl, by decide⟩

/-- C10: with `TICK_RATE=0` in the environment `loadConfig` returns `TickRate = 0`, not
the default 20, and `gameLoop(0)` panics on the division `1000/tickRate`; with
`TICK_RATE=-5` it returns `TickRate = -5`, for which the interval is negative and
`time.NewTicker` panics; a value that is not an integer, such as `abc`, does give 20. -/
theorem loadConfig_keeps_nonpositive_rate :
    (loadConfig (fun k => if k = "TICK_RATE" then some "0" else none)).TickRate = 0 ∧
      tickerInterval
        (loadConfig (fun k => if k = "TICK_RATE" then some "0" else none)).TickRate = none ∧
      (loadConfig (fun k => if k = "TICK_RATE" then some "-5" else none)).TickRate = -5 ∧
      tickerInterval
        (loadConfig (fun k => if k = "TICK_RATE" then some "-5" else none)).TickRate = none ∧
      (loadConfig (fun k => if k = "TICK_RATE" then some "abc" else none)).TickRate = 20 := by
  decide

end GameServer
